import Mathlib

/-!
Verification of the librime userdb cleaner.

A shallow embedding of `src/userdb_cleaner.cc` (librime-userdb-cleaner).
C++ `std::string` values are modelled as `List Char`; the filesystem and
host API are modelled by explicit state records.  `double` weights are
modelled by `DoubleVal`: finite values as exact rationals of the parsed
literal, plus signed infinities and NaN, with the `from_chars`/`stod`
range behaviour (overflow, underflow and subnormal ERANGE) made explicit.
-/

set_option maxRecDepth 8192
set_option exponentiation.threshold 1100

namespace UserdbCleaner

/-! ## RecordFilter: `parse_c_value` (userdb_cleaner.cc lines 410-438) -/

/-- Model of `std::isspace` in the default C locale: space, `\t`, `\n`,
vertical tab, form feed, `\r`. -/
def isCSpace (c : Char) : Bool :=
  c = ' ' || c = '\t' || c = '\n' || c = Char.ofNat 11 || c = Char.ofNat 12 || c = '\r'

/-- The characters strictly after the last occurrence of the two-character
substring `c=`, or `none` when the line has no such occurrence.  Embeds
`line.rfind("c=")` followed by `pos += 2` (the recursion prefers a match in
the tail, hence the last occurrence). -/
def afterLastCEq : List Char → Option (List Char)
  | [] => none
  | c :: rest =>
    match afterLastCEq rest with
    | some t => some t
    | none =>
      if c = 'c' then
        match rest with
        | r0 :: t => if r0 = '=' then some t else none
        | [] => none
      else none

/-- Longest run of decimal digits at the head of the list, paired with the
remainder. -/
def takeDigits : List Char → List Char × List Char
  | [] => ([], [])
  | c :: rest =>
    if c.isDigit then
      let p := takeDigits rest
      (c :: p.1, p.2)
    else ([], c :: rest)

/-- Numeric value of a digit character. -/
def charDigit (c : Char) : Nat := c.toNat - 48

/-- Value of a digit string read in base 10. -/
def digitsVal (ds : List Char) : Nat := ds.foldl (fun a c => a * 10 + charDigit c) 0

/-- Parse an unsigned decimal mantissa (`digits`, `digits.`, `digits.digits`
or `.digits`) at the head of the list; returns the concatenated mantissa
digits' value together with the number of fractional digits (the mantissa's
exact value is the former divided by ten to the latter) and the remainder,
or `none` when no digit is present. -/
def parseMantissa (cs : List Char) : Option ((Nat × Nat) × List Char) :=
  let p := takeDigits cs
  match p.2 with
  | '.' :: r2 =>
    let q := takeDigits r2
    if p.1.isEmpty && q.1.isEmpty then none
    else some ((digitsVal (p.1 ++ q.1), q.1.length), q.2)
  | _ => if p.1.isEmpty then none else some ((digitsVal p.1, 0), p.2)

/-- Parse the signed digit string of an exponent. -/
def parseExpDigits (cs : List Char) : Option (Int × List Char) :=
  match cs with
  | '+' :: r =>
    let p := takeDigits r
    if p.1.isEmpty then none else some ((digitsVal p.1 : Int), p.2)
  | '-' :: r =>
    let p := takeDigits r
    if p.1.isEmpty then none else some (-(digitsVal p.1 : Int), p.2)
  | _ =>
    let p := takeDigits cs
    if p.1.isEmpty then none else some ((digitsVal p.1 : Int), p.2)

/-- Parse an optional `e`/`E` exponent part; `none` means the exponent is
absent (or incomplete, in which case the parse backtracks before it). -/
def parseExp (cs : List Char) : Option (Int × List Char) :=
  match cs with
  | c :: rest => if c = 'e' ∨ c = 'E' then parseExpDigits rest else none
  | [] => none

/-- Value domain of the C++ `double` the weight is parsed into, as the
keep/drop test observes it: an exactly represented finite value, a signed
infinity, or NaN. -/
inductive DoubleVal where
  | num : Rat → DoubleVal
  | inf : Bool → DoubleVal
  | nan : DoubleVal
deriving DecidableEq

/-- The comparison `c_value > 0.0` on the double domain: positive finite
values and `+inf` compare greater than zero; `-inf`, non-positive finite
values and NaN do not (every comparison with NaN is false). -/
def DoubleVal.gt0 : DoubleVal → Bool
  | DoubleVal.num v => decide (0 < v)
  | DoubleVal.inf neg => !neg
  | DoubleVal.nan => false

/-- Case-insensitive literal match (for `inf` / `nan`, which `strtod` and
`std::from_chars` accept in any case): the remainder after the pattern, or
`none`. -/
def matchCI : List Char → List Char → Option (List Char)
  | [], rest => some rest
  | _ :: _, [] => none
  | p :: ps, c :: cs => if c.toLower = p then matchCI ps cs else none

/-- Numeric value of a hexadecimal digit character. -/
def hexDigitVal (c : Char) : Nat :=
  if c.isDigit then c.toNat - 48
  else if 97 ≤ c.toNat then c.toNat - 87
  else c.toNat - 55

/-- Whether a character is a hexadecimal digit (`0-9a-fA-F`). -/
def isHexDigitChar (c : Char) : Bool :=
  c.isDigit || (97 ≤ c.toNat && c.toNat ≤ 102) || (65 ≤ c.toNat && c.toNat ≤ 70)

/-- Longest run of hexadecimal digits at the head of the list, paired with
the remainder. -/
def takeHexDigits : List Char → List Char × List Char
  | [] => ([], [])
  | c :: rest =>
    if isHexDigitChar c then
      let p := takeHexDigits rest
      (c :: p.1, p.2)
    else ([], c :: rest)

/-- Value of a hexadecimal digit string read in base 16. -/
def hexVal (ds : List Char) : Nat := ds.foldl (fun a c => a * 16 + hexDigitVal c) 0

/-- Parse a hexadecimal mantissa after `0x`/`0X` (`strtod` hex-float form):
hex digits with an optional period; returns the concatenated hex digits'
value with the number of fractional hex digits, or `none` when no hex digit
is present (then only the leading `0` of `0x` converts). -/
def parseHexMantissa (cs : List Char) : Option ((Nat × Nat) × List Char) :=
  let p := takeHexDigits cs
  match p.2 with
  | '.' :: r2 =>
    let q := takeHexDigits r2
    if p.1.isEmpty && q.1.isEmpty then none
    else some ((hexVal (p.1 ++ q.1), q.1.length), q.2)
  | _ => if p.1.isEmpty then none else some ((hexVal p.1, 0), p.2)

/-- Parse an optional `p`/`P` binary-exponent part of a hex float; absent
or incomplete exponents backtrack as in the decimal case. -/
def parseHexExp (cs : List Char) : Option (Int × List Char) :=
  match cs with
  | c :: rest => if c = 'p' ∨ c = 'P' then parseExpDigits rest else none
  | [] => none

/-- Exact rational value `n * base ^ e` of a signed mantissa `n` and an
integer exponent `e` over the given base (10 for decimal, 2 for hex-float
binary exponents). -/
def scaledVal (n : Int) (base : Nat) (e : Int) : Rat :=
  if 0 ≤ e then mkRat (n * (Nat.pow base e.toNat : Nat)) 1
  else mkRat n (Nat.pow base (-e).toNat)

/-- Mantissa with the sign applied. -/
def signInt (neg : Bool) (n : Nat) : Int := if neg then -(n : Int) else (n : Int)

/-- Absolute value of a rational, written without the lattice instances so
that it evaluates by kernel reduction. -/
def ratAbs (v : Rat) : Rat := if v < 0 then -v else v

/-- Smallest magnitude that rounds to `±inf` under round-to-nearest-even:
the midpoint `2^1024 - 2^970` between `DBL_MAX = (2^53 - 1) * 2^971` and
`2^1024` (the tie rounds to the even `2^1024`, i.e. overflows).  At or
above it, `strtod` / `stod` report ERANGE / throw `out_of_range`.  Written
as a numeral so it evaluates without unary power recursion; the lemma
`dblOverflowBound_eq` below checks it against the closed form. -/
def dblOverflowBound : Rat :=
  mkRat 179769313486231580793728971405303415079934132710037826936173778980444968292764750946649017977587207096330286416692887910946555547851940402630657488671505820681908902000708383676273854845817711531764475730270069855571366959622842914819860834936475292719074168444365510704342711559699508093042880177904174497792 1

/-- Largest magnitude that rounds to zero under round-to-nearest-even: the
midpoint `2^-1075` between `0` and the smallest subnormal `2^-1074` (the
tie rounds to the even `0`).  A non-zero value at or below it underflows to
zero with ERANGE on every path.  Checked by `dblZeroBound_eq`. -/
def dblZeroBound : Rat :=
  mkRat 1 404804506614621236704990693437834614099113299528284236713802716054860679135990693783920767402874248990374155728633623822779617474771586953734026799881477019843034848553132722728933815484186432682479535356945490137124014966849385397236206711298319112681620113024717539104666829230461005064372655017292012526615415482186989568

/-- Smallest magnitude that rounds to a *normal* double: the midpoint
`2^-1022 - 2^-1075 = (2^53 - 1) / 2^1075` between the largest subnormal
and `2^-1022` (the tie rounds to the even normal).  Below it (but above
`dblZeroBound`) the result is subnormal: `std::from_chars` still returns
it with `ec == 0`, but the `strtod` behind `std::stod` sets ERANGE, so
`stod` throws.  Checked by `dblNormalBound_eq`. -/
def dblNormalBound : Rat :=
  mkRat 9007199254740991 404804506614621236704990693437834614099113299528284236713802716054860679135990693783920767402874248990374155728633623822779617474771586953734026799881477019843034848553132722728933815484186432682479535356945490137124014966849385397236206711298319112681620113024717539104666829230461005064372655017292012526615415482186989568

/-- The overflow-bound numeral is exactly `2^1024 - 2^970`. -/
theorem dblOverflowBound_eq : dblOverflowBound = (2 : Rat) ^ 1024 - 2 ^ 970 := by
  rw [dblOverflowBound, Rat.mkRat_eq_div]
  norm_num

/-- The underflow-to-zero-bound numeral is exactly `2^-1075`. -/
theorem dblZeroBound_eq : dblZeroBound = 1 / (2 : Rat) ^ 1075 := by
  rw [dblZeroBound, Rat.mkRat_eq_div]
  norm_num

/-- The subnormal-bound numeral is exactly `(2^53 - 1) / 2^1075`. -/
theorem dblNormalBound_eq :
    dblNormalBound = ((2 : Rat) ^ 53 - 1) / (2 : Rat) ^ 1075 := by
  rw [dblNormalBound, Rat.mkRat_eq_div]
  norm_num

/-- Range behaviour of the combined `from_chars`-then-`stod` pipeline on a
finite parsed value `v`, where `fcFull` says the token was fully consumed
by `std::from_chars` (whole token, no `+` sign, not a hex form — then a
subnormal result is returned with `ec == 0` and never reaches `stod`):
overflow and underflow-to-zero fail on both paths (`from_chars` reports
`result_out_of_range`, `stod` throws), and a subnormal result fails only on
the `stod` path (ERANGE throw); `none` reaches the `catch` that keeps the
line. -/
def rangedVal (v : Rat) (fcFull : Bool) : Option DoubleVal :=
  if dblOverflowBound ≤ ratAbs v then none
  else if ¬ v = 0 ∧ ratAbs v ≤ dblZeroBound then none
  else if ¬ v = 0 ∧ ratAbs v < dblNormalBound ∧ fcFull = false then none
  else some (DoubleVal.num v)

/-- Embeds the combined numeric conversion of `parse_c_value`
(userdb_cleaner.cc 426-436): `std::from_chars` over the whole token, and on
failure or partial consumption `std::stod` (i.e. `strtod`) on the token's
longest valid prefix inside `try { ... } catch (...) { return 1.0 }`.  The
common grammar is `[+-]?` (`from_chars` itself rejects `+`, but `stod` then
accepts it) followed by a case-insensitive `inf`/`infinity`, a
case-insensitive `nan` (any payload parses to the same NaN), a `0x`/`0X`
hex float (reached only via `stod`; a bare `0x` without hex digits converts
as the prefix `0`), or a decimal mantissa with optional `e`/`E` exponent.
`none` means no prefix converts or the conversion ends in the `catch`
(`stod` threw `out_of_range`), which the caller turns into `1.0`. -/
def parseDouble (cs : List Char) : Option DoubleVal :=
  let sp : Bool × Bool × List Char :=
    match cs with
    | '+' :: r => (false, true, r)
    | '-' :: r => (true, false, r)
    | _ => (false, false, cs)
  let neg := sp.1
  let plus := sp.2.1
  let body := sp.2.2
  match matchCI "inf".data body with
  | some _ => some (DoubleVal.inf neg)
  | none =>
  match matchCI "nan".data body with
  | some _ => some DoubleVal.nan
  | none =>
  match body with
  | '0' :: x :: rest =>
    if x = 'x' ∨ x = 'X' then
      match parseHexMantissa rest with
      | none => some (DoubleVal.num 0)
      | some (m, r1) =>
        let e : Int :=
          match parseHexExp r1 with
          | none => 0
          | some (ex, _) => ex
        rangedVal (scaledVal (signInt neg m.1) 2 (e - 4 * (m.2 : Int))) false
    else
      match parseMantissa body with
      | none => none
      | some (m, r1) =>
        let ep := parseExp r1
        let e : Int := match ep with | none => 0 | some (ex, _) => ex
        let r2 : List Char := match ep with | none => r1 | some (_, r) => r
        rangedVal (scaledVal (signInt neg m.1) 10 (e - (m.2 : Int)))
          (!plus && r2.isEmpty)
  | _ =>
    match parseMantissa body with
    | none => none
    | some (m, r1) =>
      let ep := parseExp r1
      let e : Int := match ep with | none => 0 | some (ex, _) => ex
      let r2 : List Char := match ep with | none => r1 | some (_, r) => r
      rangedVal (scaledVal (signInt neg m.1) 10 (e - (m.2 : Int)))
        (!plus && r2.isEmpty)

/-- Embeds `parse_c_value` (userdb_cleaner.cc 410-438): find the last `c=`,
bound the token up to the next `isspace` character or end of line, parse it
through the `from_chars`/`stod` pipeline; `1.0` when `c=` is absent or the
token fails to convert (fail open via the `catch`). -/
def parse_c_value (line : List Char) : DoubleVal :=
  match afterLastCEq line with
  | none => DoubleVal.num 1
  | some rest =>
    let tok := rest.takeWhile (fun c => !isCSpace c)
    match parseDouble tok with
    | none => DoubleVal.num 1
    | some v => v

/-! ## RecordFilter: `extract_word_text` (userdb_cleaner.cc 445-461) -/

/-- Split at the first tab: `some (before, after)`, or `none` when the list
contains no tab.  Embeds `line.find('\t')` plus the two `substr` calls. -/
def breakTab : List Char → Option (List Char × List Char)
  | [] => none
  | c :: rest =>
    if c = '\t' then some ([], rest)
    else
      match breakTab rest with
      | none => none
      | some p => some (c :: p.1, p.2)

/-- Embeds `extract_word_text` (userdb_cleaner.cc 445-461): no tab → whole line;
one tab → substring after it; otherwise the substring strictly between the
first and second tab. -/
def extract_word_text (line : List Char) : List Char :=
  match breakTab line with
  | none => line
  | some p =>
    match breakTab p.2 with
    | none => p.2
    | some q => q.1

/-! ## CompactingRewriter: the per-file loop of `clean_userdb_files`
(userdb_cleaner.cc 487-502) -/

/-- The `while (std::getline(in, line))` loop body: empty lines are skipped
(neither written nor counted); a non-empty line is written verbatim when its
`c` value is `> 0`, otherwise it is dropped, its word text recorded and the
deleted count incremented.  Returns (lines written, deleted count, deleted
word texts), in file order. -/
def compactLines : List (List Char) → List (List Char) × Nat × List (List Char)
  | [] => ([], 0, [])
  | l :: rest =>
    let r := compactLines rest
    if l.isEmpty then r
    else if (parse_c_value l).gt0 then (l :: r.1, r.2.1, r.2.2)
    else (r.1, r.2.1 + 1, extract_word_text l :: r.2.2)

/-- Model of `std::getline` splitting of a byte stream: lines are the maximal runs
between `\n` separators; a final line without a trailing newline is still
returned, and an empty stream yields no lines. -/
def splitNl : List Char → List (List Char)
  | [] => []
  | c :: rest =>
    if c = '\n' then [] :: splitNl rest
    else
      match splitNl rest with
      | [] => [[c]]
      | l :: ls => (c :: l) :: ls

/-- The bytes written by the rewrite loop: each kept line followed by
`"\n"` (`out << line << "\n"`). -/
def renderLines : List (List Char) → List Char
  | [] => []
  | l :: ls => l ++ '\n' :: renderLines ls

/-- One compaction pass over a whole file's bytes: split into lines as
`getline` does, run the keep/drop loop, and render the surviving lines.
Returns (bytes of the rewritten file, deleted count, deleted word texts). -/
def compactFileContent (content : List Char) : List Char × Nat × List (List Char) :=
  let r := compactLines (splitNl content)
  (renderLines r.1, r.2.1, r.2.2)

/-- One file of the compaction pass with its stream-open outcomes
(userdb_cleaner.cc 477-484): when either the input stream or the sibling
`.cache` output stream fails to open, the file is skipped — its lines are
left unchanged and it contributes no deletions; otherwise the file is
rewritten through the keep/drop loop. -/
def processFile (canOpenIn canOpenOut : Bool) (lines : List (List Char)) :
    List (List Char) × Nat × List (List Char) :=
  if canOpenIn && canOpenOut then compactLines lines else (lines, 0, [])

/-- A `.userdb.txt` file as the compaction pass sees it: whether its input
stream opens, whether its `.cache` output stream opens, and its lines. -/
structure TxtFile where
  canOpenIn : Bool
  canOpenOut : Bool
  lines : List (List Char)

/-- The loop of `clean_userdb_files` (467-527) over the discovered files:
total deleted-entry count and the accumulated `deleted_words`. -/
def clean_userdb_files : List TxtFile → Nat × List (List Char)
  | [] => (0, [])
  | f :: fs =>
    let r := processFile f.canOpenIn f.canOpenOut f.lines
    let rest := clean_userdb_files fs
    (r.2.1 + rest.1, r.2.2 ++ rest.2)

/-! ## DirectoryScanner and allow-list (userdb_cleaner.cc 221-260, 265-310,
354-405) -/

/-- Embeds `should_clean_userdb` (221-235): an empty cleanup list cleans
everything; otherwise the db name must equal one of the listed names. -/
def should_clean_userdb (dbName : List Char) (cleanupList : List (List Char)) : Bool :=
  if cleanupList.isEmpty then true
  else cleanupList.any (fun allowed => dbName = allowed)

/-- Embeds `extract_userdb_name` (240-260): for a directory named `*.userdb` strip
that suffix; else for a name `*.userdb.txt` strip that suffix; else return
the name unchanged.  The name must be strictly longer than the suffix. -/
def extract_userdb_name (name : List Char) (isDir : Bool) : List Char :=
  let udb := ".userdb".data
  if isDir && decide (udb.length < name.length)
      && decide (name.drop (name.length - udb.length) = udb) then
    name.take (name.length - udb.length)
  else
    let utxt := ".userdb.txt".data
    if decide (utxt.length < name.length)
        && decide (name.drop (name.length - utxt.length) = utxt) then
      name.take (name.length - utxt.length)
    else name

/-- A filesystem directory entry as the scanners see it: its base name and
whether it is a directory (`entry.is_directory()`) or a regular file
(`entry.is_regular_file()`). -/
structure DirEntry where
  name : List Char
  isDir : Bool

/-- The filter of `get_userdb_folders` (277-302): directory entries whose
name is strictly longer than `.userdb` and ends with it, restricted by the
cleanup list. -/
def folderMatches (cleanupList : List (List Char)) (e : DirEntry) : Bool :=
  let udb := ".userdb".data
  e.isDir && decide (udb.length < e.name.length)
    && decide (e.name.drop (e.name.length - udb.length) = udb)
    && should_clean_userdb (extract_userdb_name e.name e.isDir) cleanupList

/-- Embeds `get_userdb_folders` (265-310): the names of the matching `.userdb`
directories under the user data directory. -/
def get_userdb_folders (entries : List DirEntry) (cleanupList : List (List Char)) :
    List (List Char) :=
  (entries.filter (folderMatches cleanupList)).map DirEntry.name

/-- The filter of `get_userdb_files` (371-397): regular files whose name is
strictly longer than `.userdb.txt` and ends with it, restricted by the
cleanup list. -/
def fileMatches (cleanupList : List (List Char)) (e : DirEntry) : Bool :=
  let utxt := ".userdb.txt".data
  !e.isDir && decide (utxt.length < e.name.length)
    && decide (e.name.drop (e.name.length - utxt.length) = utxt)
    && should_clean_userdb (extract_userdb_name e.name e.isDir) cleanupList

/-! ## PathResolver: `get_sync_directory` (userdb_cleaner.cc 150-216) -/

/-- The Windows escaped-separator normalization (179-189): every occurrence
of two consecutive backslashes is replaced by one, scanning left to right
and resuming just after each replacement. -/
def normalizeBackslashes : List Char → List Char
  | '\\' :: '\\' :: rest => '\\' :: normalizeBackslashes rest
  | c :: rest => c :: normalizeBackslashes rest
  | [] => []

/-- Model of `fs::path` append with a directory separator (`user_path / "sync"`). -/
def pathJoin (a b : List Char) : List Char := a ++ '/' :: b

/-- The host state `get_sync_directory` consults: the sync directory
reported by `get_sync_dir_s`, the user data directory from
`get_user_data_dir_s`, the `sync_dir` value of `installation.yaml` when the
file exists, loads and has the key (`none` otherwise), and the combined
`fs::exists p && fs::is_directory p` test. -/
structure PathEnv where
  apiSyncDir : List Char
  userDataDir : List Char
  instSyncDir : Option (List Char)
  existsDir : List Char → Bool

/-- Embeds `get_sync_directory` (150-216): the API sync directory when it is an
existing directory; else the normalized `sync_dir` of `installation.yaml`
when that is an existing directory; else `<user_data_dir>/sync`, which is
returned even when it does not exist.  Total: resolution never fails. -/
def get_sync_directory (env : PathEnv) : List Char :=
  if env.existsDir env.apiSyncDir then env.apiSyncDir
  else
    let fallback := pathJoin env.userDataDir "sync".data
    match env.instSyncDir with
    | some d =>
      let nd := normalizeBackslashes d
      if env.existsDir nd then nd else fallback
    | none => fallback

/-- Embeds `get_userdb_files` (354-405): resolve the sync directory; when it does
not exist or is not a directory, return no matches (362-365); otherwise
scan the tree's entries with the `.userdb.txt` filter. -/
def get_userdb_files (env : PathEnv) (entries : List DirEntry)
    (cleanupList : List (List Char)) : List (List Char) :=
  if env.existsDir (get_sync_directory env) then
    (entries.filter (fileMatches cleanupList)).map DirEntry.name
  else []

/-! ## FolderPurger: `clean_userdb_folders` (userdb_cleaner.cc 315-349) -/

/-- One matched `.userdb` folder for the purge loop: the success of each
per-file `fs::remove` of its direct children, in order (`false` means the
deletion threw and was logged). -/
def purgeFolder (removals : List Bool) : Nat := (removals.filter id).length

/-- The delete loop of `clean_userdb_folders` (332-345): per-file failures
are logged and skipped, every remaining child is still attempted, and only
successful deletions are counted. -/
def clean_userdb_folders (folders : List (List Bool)) : Nat :=
  (folders.map purgeFolder).sum

/-! ## SingleFlightRunner and `ProcessKeyEvent` (userdb_cleaner.cc 745-769) -/

/-- Modelled from the spec: `lib/detached_thread_manager.hpp` is included
by userdb_cleaner.cc but its source is not in the repository snapshot.  Per
the spec's SingleFlightRunner contract, the manager holds a single shared
busy flag guarding at most one in-flight cleanup task. -/
structure DetachedThreadManager where
  busy : Bool

/-- Modelled from the spec: `try_start` returns `false` immediately, without
running the task, when a previously started task is still in flight;
otherwise it marks the manager busy and runs the task. -/
def try_start (s : DetachedThreadManager) : Bool × DetachedThreadManager :=
  if s.busy then (false, s) else (true, ⟨true⟩)

/-- Modelled from the spec: a `try_start` invocation together with its
effect on a filesystem state `fs`; the task body mutates `fs` only when the
start is accepted. -/
def try_start_run {α : Type} (s : DetachedThreadManager) (fs : α) (task : α → α) :
    Bool × DetachedThreadManager × α :=
  let r := try_start s
  (r.1, r.2, if r.1 then task fs else fs)

/-- Modelled from the spec: the busy flag is cleared when the task
completes, whether it succeeded or failed. -/
def finish_task (_ : DetachedThreadManager) (_success : Bool) : DetachedThreadManager :=
  ⟨false⟩

/-- Mirror of `ProcessResult` of rime's `Processor` interface. -/
inductive ProcessResult where
  | kRejected : ProcessResult
  | kAccepted : ProcessResult
  | kNoop : ProcessResult
deriving DecidableEq

/-- The context input buffer visible to `ProcessKeyEvent`. -/
structure InputContext where
  input : List Char

/-- Embeds `UserdbCleaner::ProcessKeyEvent` (745-769), Windows build: when the
input buffer equals the trigger string, the buffer is cleared first
(`ctx->Clear()`), then the cleanup task is started through the manager;
`kAccepted` when the start succeeded, `kNoop` when a task was already
running or the input did not match. -/
def ProcessKeyEvent (trigger : List Char) (ctx : InputContext)
    (s : DetachedThreadManager) :
    ProcessResult × InputContext × DetachedThreadManager :=
  if ctx.input = trigger then
    let ctx' : InputContext := ⟨[]⟩
    let r := try_start s
    if r.1 then (ProcessResult.kAccepted, ctx', r.2)
    else (ProcessResult.kNoop, ctx', r.2)
  else (ProcessResult.kNoop, ctx, s)

/-! ## ReportAggregator: `process_clean_task` (userdb_cleaner.cc 704-743) -/

/-- The result summary handed to `send_clean_msg`. -/
structure CleanReport where
  notifiedCount : Nat
  folderDeletedCount : Nat
  deletedWords : List (List Char)

/-- Embeds `process_clean_task` (704-743): run the folder purge and the file
compaction, then notify with `total_notification_count =
file_deleted_count` only (728-729); the folder purge count stays a separate
counter. -/
def process_clean_task (folders : List (List Bool)) (files : List TxtFile) :
    CleanReport :=
  let folderCount := clean_userdb_folders folders
  let fileResult := clean_userdb_files files
  { notifiedCount := fileResult.1
    folderDeletedCount := folderCount
    deletedWords := fileResult.2 }

/-! ## Supporting lemmas -/

/-- The compaction loop distributes over concatenation of line blocks. -/
theorem compactLines_append (xs ys : List (List Char)) :
    compactLines (xs ++ ys) =
      ((compactLines xs).1 ++ (compactLines ys).1,
       (compactLines xs).2.1 + (compactLines ys).2.1,
       (compactLines xs).2.2 ++ (compactLines ys).2.2) := by
  induction xs with
  | nil => simp [compactLines]
  | cons l rest ih =>
    by_cases h1 : l.isEmpty
    · simp [compactLines, h1, ih]
    · by_cases h2 : (parse_c_value l).gt0 = true
      · simp [compactLines, h1, h2, ih]
      · simp [compactLines, h1, h2, ih]
        omega

/-- Every line surviving compaction came from the input, is non-empty and
has a positive `c` value. -/
theorem mem_compactLines (ls : List (List Char)) (l : List Char)
    (h : l ∈ (compactLines ls).1) :
    l ∈ ls ∧ l.isEmpty = false ∧ (parse_c_value l).gt0 = true := by
  induction ls with
  | nil => simp [compactLines] at h
  | cons x rest ih =>
    by_cases h1 : x.isEmpty
    · simp only [compactLines, h1, if_true] at h
      have := ih h
      exact ⟨List.mem_cons_of_mem _ this.1, this.2⟩
    · by_cases h2 : (parse_c_value x).gt0 = true
      · simp only [compactLines, h1, if_false, Bool.false_eq_true, if_pos h2] at h
        rcases List.mem_cons.mp h with h3 | h3
        · subst h3
          exact ⟨List.mem_cons_self _ _, by simpa using h1, h2⟩
        · have := ih h3
          exact ⟨List.mem_cons_of_mem _ this.1, this.2⟩
      · simp only [compactLines, h1, if_false, Bool.false_eq_true, if_neg h2] at h
        have := ih h
        exact ⟨List.mem_cons_of_mem _ this.1, this.2⟩

/-- Compaction leaves a block of non-empty, positively weighted lines
unchanged and deletes nothing. -/
theorem compactLines_keep_all (ls : List (List Char))
    (h : ∀ l ∈ ls, l.isEmpty = false ∧ (parse_c_value l).gt0 = true) :
    compactLines ls = (ls, 0, []) := by
  induction ls with
  | nil => rfl
  | cons x rest ih =>
    have hx := h x (List.mem_cons_self _ _)
    have hr := ih (fun l hl => h l (List.mem_cons_of_mem _ hl))
    simp [compactLines, hx.1, hx.2, hr]

/-- Lines from `getline` splitting are free of newline characters. -/
theorem splitNl_no_newline (c : List Char) : ∀ l ∈ splitNl c, '\n' ∉ l := by
  induction c with
  | nil => simp [splitNl]
  | cons a rest ih =>
    by_cases h : a = '\n'
    · subst h
      simp only [splitNl, if_pos rfl]
      intro l hl
      rcases List.mem_cons.mp hl with h3 | h3
      · subst h3; simp
      · exact ih l h3
    · simp only [splitNl, if_neg h]
      cases hs : splitNl rest with
      | nil =>
        intro l hl
        simp only [List.mem_singleton] at hl
        subst hl
        simp [Ne.symm h]
      | cons hd tl =>
        intro l hl
        rcases List.mem_cons.mp hl with h3 | h3
        · subst h3
          intro hm
          rcases List.mem_cons.mp hm with h4 | h4
          · exact h h4.symm
          · exact ih hd (hs ▸ List.mem_cons_self _ _) h4
        · exact ih l (hs ▸ List.mem_cons_of_mem _ h3)

/-- Splitting after appending a newline-terminated, newline-free line peels
that line off. -/
theorem splitNl_append (l r : List Char) (h : '\n' ∉ l) :
    splitNl (l ++ '\n' :: r) = l :: splitNl r := by
  induction l with
  | nil => simp [splitNl]
  | cons a as ih =>
    have ha : ¬ a = '\n' := fun e => h (e ▸ List.mem_cons_self _ _)
    have h' : '\n' ∉ as := fun hm => h (List.mem_cons_of_mem _ hm)
    simp only [List.cons_append, splitNl, if_neg ha, List.append_eq, ih h']

/-- Rendering then re-splitting newline-free lines is the identity: the
bytes written for the kept lines read back as exactly those lines. -/
theorem splitNl_renderLines (ls : List (List Char)) (h : ∀ l ∈ ls, '\n' ∉ l) :
    splitNl (renderLines ls) = ls := by
  induction ls with
  | nil => rfl
  | cons l rest ih =>
    simp only [renderLines]
    rw [splitNl_append _ _ (h l (List.mem_cons_self _ _)),
        ih (fun x hx => h x (List.mem_cons_of_mem _ hx))]

/-- Unfolding equation of `afterLastCEq` on a cons cell. -/
theorem afterLastCEq_cons (c : Char) (rest : List Char) :
    afterLastCEq (c :: rest) =
      match afterLastCEq rest with
      | some t => some t
      | none =>
        if c = 'c' then
          match rest with
          | r0 :: t => if r0 = '=' then some t else none
          | [] => none
        else none := rfl

/-- Lemma: `afterLastCEq` returns `none` exactly on the lines with no `c=`
substring. -/
theorem afterLastCEq_none_iff (l : List Char) :
    afterLastCEq l = none ↔ ∀ x y : List Char, l ≠ x ++ 'c' :: '=' :: y := by
  induction l with
  | nil =>
    simp only [afterLastCEq, true_iff]
    intro x y h
    cases x <;> simp at h
  | cons a rest ih =>
    constructor
    · intro h x y heq
      cases hr : afterLastCEq rest with
      | some t => rw [afterLastCEq_cons, hr] at h; simp at h
      | none =>
        cases x with
        | nil =>
          simp only [List.nil_append, List.cons.injEq] at heq
          obtain ⟨ha, hrest⟩ := heq
          subst ha; subst hrest
          rw [afterLastCEq_cons, hr] at h
          simp at h
        | cons x0 xs =>
          simp only [List.cons_append, List.cons.injEq] at heq
          exact (ih.mp hr) xs y heq.2
    · intro H
      have hr : afterLastCEq rest = none :=
        ih.mpr (fun x y hxy => H (a :: x) y (by simp [hxy]))
      by_cases ha : a = 'c'
      · subst ha
        cases rest with
        | nil => simp [afterLastCEq]
        | cons r0 rs =>
          by_cases hr0 : r0 = '='
          · subst hr0
            exact absurd (by simp) (H [] rs)
          · rw [afterLastCEq_cons, hr]
            simp [hr0]
      · rw [afterLastCEq_cons, hr]
        simp [ha]

/-- Splitting at the first tab returns `none` exactly on tab-free lists. -/
theorem breakTab_none (l : List Char) (h : '\t' ∉ l) : breakTab l = none := by
  induction l with
  | nil => rfl
  | cons a as ih =>
    have ha : ¬ a = '\t' := fun e => h (e ▸ List.mem_cons_self _ _)
    rw [breakTab, if_neg ha, ih (fun hm => h (List.mem_cons_of_mem _ hm))]

/-- Splitting at the first tab of `a ++ '\t' :: r` with `a` tab-free
returns `(a, r)`. -/
theorem breakTab_append (a r : List Char) (h : '\t' ∉ a) :
    breakTab (a ++ '\t' :: r) = some (a, r) := by
  induction a with
  | nil => simp [breakTab]
  | cons x xs ih =>
    have hx : ¬ x = '\t' := fun e => h (e ▸ List.mem_cons_self _ _)
    rw [List.cons_append, breakTab, if_neg hx,
        ih (fun hm => h (List.mem_cons_of_mem _ hm))]

/-- Lemma: `should_clean_userdb` tests exactly "empty list or exact membership". -/
theorem should_clean_userdb_iff (db : List Char) (cl : List (List Char)) :
    should_clean_userdb db cl = true ↔ (cl = [] ∨ db ∈ cl) := by
  unfold should_clean_userdb
  by_cases h : cl.isEmpty
  · simp [h, List.isEmpty_iff.mp h]
  · rw [if_neg h]
    simp only [List.any_eq_true, decide_eq_true_eq]
    constructor
    · rintro ⟨x, hx, rfl⟩
      exact Or.inr hx
    · rintro (rfl | hm)
      · simp at h
      · exact ⟨db, hm, rfl⟩

/-- Dropping a suffix-length prefix count from an appended list recovers the
suffix. -/
theorem drop_suffix (s t : List Char) :
    (s ++ t).drop ((s ++ t).length - t.length) = t := by
  rw [List.length_append, Nat.add_sub_cancel, List.drop_left]

/-- Taking up to the suffix of an appended list recovers the prefix. -/
theorem take_append_left (s t : List Char) :
    (s ++ t).take ((s ++ t).length - t.length) = s := by
  rw [List.length_append, Nat.add_sub_cancel, List.take_left]

/-- Lemma: `extract_userdb_name` strips `.userdb` from a directory name. -/
theorem extract_userdb_name_dir (s : List Char) (hs : s ≠ []) :
    extract_userdb_name (s ++ ".userdb".data) true = s := by
  have hlt : (".userdb".data).length < (s ++ ".userdb".data).length := by
    rw [List.length_append]
    have := List.length_pos.mpr hs
    omega
  simp [extract_userdb_name, hlt, drop_suffix, take_append_left, hs]

/-- Lemma: `extract_userdb_name` strips `.userdb.txt` from a file name. -/
theorem extract_userdb_name_file (s : List Char) (hs : s ≠ []) :
    extract_userdb_name (s ++ ".userdb.txt".data) false = s := by
  have hlt : (".userdb.txt".data).length < (s ++ ".userdb.txt".data).length := by
    rw [List.length_append]
    have := List.length_pos.mpr hs
    omega
  simp [extract_userdb_name, hlt, drop_suffix, take_append_left, hs]

/-- The fail-open value `1.0` compares greater than zero. -/
theorem gt0_one : (DoubleVal.num 1).gt0 = true := by decide

/-! ## Claim theorems -/

/-- Claim C1. Compaction keep/drop correctness: appending one non-empty line to
the compaction loop's input writes the line verbatim to the rewritten file
exactly when its parsed `c` value is `> 0`; otherwise the rewritten file is
unchanged, the deleted count is incremented by 1 and the line's extracted
word text is appended to the deleted-labels list. -/
theorem compaction_keep_drop (ls : List (List Char)) (l : List Char)
    (h : l ≠ []) :
    ((parse_c_value l).gt0 = true →
      compactLines (ls ++ [l]) =
        ((compactLines ls).1 ++ [l], (compactLines ls).2.1,
         (compactLines ls).2.2)) ∧
    ((parse_c_value l).gt0 = false →
      compactLines (ls ++ [l]) =
        ((compactLines ls).1, (compactLines ls).2.1 + 1,
         (compactLines ls).2.2 ++ [extract_word_text l])) := by
  have hne : l.isEmpty = false := by
    cases l with
    | nil => exact absurd rfl h
    | cons a as => rfl
  constructor <;> intro hk <;> rw [compactLines_append]
  · simp [compactLines, hne, hk]
  · simp [compactLines, hne, hk]

/-- Witness for C1: the spec's Scenario B line `wu xiao\t无效\tc=-1 d=0.1
t=50` is dropped, increments the count by one and records the label
`无效`. -/
theorem compaction_keep_drop_witness :
    compactLines (["ni hao\t你好\tc=1 d=0.5 t=100".data] ++
        ["wu xiao\t无效\tc=-1 d=0.1 t=50".data]) =
      ((compactLines ["ni hao\t你好\tc=1 d=0.5 t=100".data]).1,
       (compactLines ["ni hao\t你好\tc=1 d=0.5 t=100".data]).2.1 + 1,
       (compactLines ["ni hao\t你好\tc=1 d=0.5 t=100".data]).2.2 ++
         [extract_word_text "wu xiao\t无效\tc=-1 d=0.1 t=50".data]) :=
  (compaction_keep_drop _ _ (by decide)).2 (by decide)

/-- Claim C2, counterexample: a blank line contains no `c=` token and its
classification fails open (`parse_c_value` is 1), yet the line is *not*
preserved in the rewritten file — `clean_userdb_files` skips empty lines
before classification, so the one-blank-line file `"\n"` rewrites to the
empty file.  The claim as stated is therefore false for empty lines. -/
theorem blank_line_not_preserved :
    parse_c_value [] = DoubleVal.num 1 ∧
    afterLastCEq ([] : List Char) = none ∧
    compactFileContent "\n".data = ([], 0, []) := by decide

/-- Claim C2 (amended: restricted to non-empty lines, as the code's
empty-line skip forces): every *non-empty* line with no `c=` occurrence, or
whose token after the last `c=` (bounded by whitespace or end of line)
fails to parse, is classified `keep` (`parse_c_value` = 1) and is preserved
verbatim in the rewritten file. -/
theorem parse_fail_open (ls : List (List Char)) (line : List Char)
    (hne : line ≠ [])
    (h : (∀ x y : List Char, line ≠ x ++ 'c' :: '=' :: y) ∨
         (∃ r, afterLastCEq line = some r ∧
            parseDouble (r.takeWhile (fun c => !isCSpace c)) = none)) :
    parse_c_value line = DoubleVal.num 1 ∧
    compactLines (ls ++ [line]) =
      ((compactLines ls).1 ++ [line], (compactLines ls).2.1,
       (compactLines ls).2.2) := by
  have hp : parse_c_value line = DoubleVal.num 1 := by
    rcases h with h | ⟨r, hr, hparse⟩
    · have hn : afterLastCEq line = none := (afterLastCEq_none_iff line).mpr h
      simp [parse_c_value, hn]
    · simp [parse_c_value, hr, hparse]
  have hne' : line.isEmpty = false := by
    cases line with
    | nil => exact absurd rfl hne
    | cons a as => rfl
  refine ⟨hp, ?_⟩
  rw [compactLines_append]
  simp [compactLines, hne', hp, gt0_one]

/-- Witness for C2 (amended): the line `hello world` has no `c=` and is
kept. -/
theorem parse_fail_open_witness :
    parse_c_value "a\tb\tc=-1e999".data = DoubleVal.num 1 ∧
    compactLines ([] ++ ["a\tb\tc=-1e999".data]) =
      ((compactLines []).1 ++ ["a\tb\tc=-1e999".data],
       (compactLines []).2.1, (compactLines []).2.2) :=
  parse_fail_open [] "a\tb\tc=-1e999".data (by decide)
    (Or.inr ⟨"-1e999".data, by decide, by decide⟩)

/-- Claim C3. Single-flight guarantee (modelled from the spec, the
`DetachedThreadManager` source being absent from the snapshot): when a
`try_start` succeeded, a second `try_start` before completion returns
`false` and leaves the filesystem untouched; the successful start marked
the manager busy and ran the task; and completion clears the busy flag
whatever the task's success. -/
theorem single_flight_guarantee {α : Type} (s : DetachedThreadManager)
    (fs fs2 : α) (task task2 : α → α)
    (h : (try_start_run s fs task).1 = true) :
    ((try_start_run (try_start_run s fs task).2.1 fs2 task2).1 = false ∧
     (try_start_run (try_start_run s fs task).2.1 fs2 task2).2.2 = fs2) ∧
    try_start_run s fs task = (true, ⟨true⟩, task fs) ∧
    (∀ ok : Bool, (finish_task (try_start_run s fs task).2.1 ok).busy = false) := by
  have hb : s.busy = false := by
    by_contra hb
    have hb' : s.busy = true := by simpa using hb
    simp [try_start_run, try_start, hb'] at h
  simp [try_start_run, try_start, finish_task, hb]

/-- Witness for C3 at a concrete manager, state and task. -/
theorem single_flight_guarantee_witness :
    ((try_start_run (try_start_run ⟨false⟩ (0 : Nat) Nat.succ).2.1
        (5 : Nat) Nat.succ).1 = false ∧
     (try_start_run (try_start_run ⟨false⟩ (0 : Nat) Nat.succ).2.1
        (5 : Nat) Nat.succ).2.2 = 5) ∧
    try_start_run ⟨false⟩ (0 : Nat) Nat.succ = (true, ⟨true⟩, Nat.succ 0) ∧
    (∀ ok : Bool,
      (finish_task (try_start_run ⟨false⟩ (0 : Nat) Nat.succ).2.1 ok).busy = false) :=
  single_flight_guarantee ⟨false⟩ 0 5 Nat.succ Nat.succ rfl

/-- Claim C4. Idempotence of compaction: a second compaction pass over the
bytes produced by a first pass deletes zero entries and writes a file
byte-identical to its input. -/
theorem compaction_idempotent (content : List Char) :
    compactFileContent (compactFileContent content).1 =
      ((compactFileContent content).1, 0, []) := by
  have h1 : ∀ l ∈ (compactLines (splitNl content)).1, '\n' ∉ l := fun l hl =>
    splitNl_no_newline content l (mem_compactLines _ _ hl).1
  have h2 : splitNl (renderLines (compactLines (splitNl content)).1) =
      (compactLines (splitNl content)).1 := splitNl_renderLines _ h1
  have h3 : compactLines (compactLines (splitNl content)).1 =
      ((compactLines (splitNl content)).1, 0, []) :=
    compactLines_keep_all _ (fun l hl => (mem_compactLines _ _ hl).2)
  simp [compactFileContent, h2, h3]

/-- Claim C5. Allow-list restriction: a discovered `.userdb` directory (resp.
`.userdb.txt` file) whose stripped base name is `s` appears in the cleanup
set exactly when the cleanup list is empty or contains `s` by exact string
equality; db names outside a non-empty list are never touched. -/
theorem allow_list_restriction (entries : List DirEntry)
    (cleanupList : List (List Char)) (e : DirEntry) (s : List Char)
    (hs : s ≠ []) (hmem : e ∈ entries) :
    (e.isDir = true → e.name = s ++ ".userdb".data →
      (e.name ∈ get_userdb_folders entries cleanupList ↔
        (cleanupList = [] ∨ s ∈ cleanupList))) ∧
    (∀ env : PathEnv, e.isDir = false → e.name = s ++ ".userdb.txt".data →
      env.existsDir (get_sync_directory env) = true →
      (e.name ∈ get_userdb_files env entries cleanupList ↔
        (cleanupList = [] ∨ s ∈ cleanupList))) := by
  constructor
  · intro hdir hname
    unfold get_userdb_folders
    constructor
    · intro hin
      rcases List.mem_map.mp hin with ⟨e', he', hname'⟩
      have hf := (List.mem_filter.mp he').2
      simp only [folderMatches, Bool.and_eq_true, decide_eq_true_eq] at hf
      obtain ⟨⟨⟨hdir', _⟩, _⟩, hclean⟩ := hf
      rw [hdir', hname', hname, extract_userdb_name_dir s hs] at hclean
      exact (should_clean_userdb_iff _ _).mp hclean
    · intro hcl
      apply List.mem_map.mpr
      refine ⟨e, List.mem_filter.mpr ⟨hmem, ?_⟩, rfl⟩
      simp only [folderMatches, Bool.and_eq_true, decide_eq_true_eq]
      refine ⟨⟨⟨hdir, ?_⟩, ?_⟩, ?_⟩
      · show (7 : Nat) < e.name.length
        rw [hname, List.length_append]
        have h1 : (".userdb".data).length = 7 := rfl
        have h2 := List.length_pos.mpr hs
        omega
      · rw [hname]
        exact drop_suffix s _
      · rw [hdir, hname, extract_userdb_name_dir s hs]
        exact (should_clean_userdb_iff _ _).mpr hcl
  · intro env hfile hname henv
    simp only [get_userdb_files, henv, if_true]
    constructor
    · intro hin
      rcases List.mem_map.mp hin with ⟨e', he', hname'⟩
      have hf := (List.mem_filter.mp he').2
      simp only [fileMatches, Bool.and_eq_true, decide_eq_true_eq,
        Bool.not_eq_true'] at hf
      obtain ⟨⟨⟨hdir', _⟩, _⟩, hclean⟩ := hf
      rw [hdir', hname', hname, extract_userdb_name_file s hs] at hclean
      exact (should_clean_userdb_iff _ _).mp hclean
    · intro hcl
      apply List.mem_map.mpr
      refine ⟨e, List.mem_filter.mpr ⟨hmem, ?_⟩, rfl⟩
      simp only [fileMatches, Bool.and_eq_true, decide_eq_true_eq,
        Bool.not_eq_true']
      refine ⟨⟨⟨hfile, ?_⟩, ?_⟩, ?_⟩
      · show (11 : Nat) < e.name.length
        rw [hname, List.length_append]
        have h1 : (".userdb.txt".data).length = 11 := rfl
        have h2 := List.length_pos.mpr hs
        omega
      · rw [hname]
        exact drop_suffix s _
      · rw [hfile, hname, extract_userdb_name_file s hs]
        exact (should_clean_userdb_iff _ _).mpr hcl

/-- Witness for C5: the spec's Scenario C — folder `foo.userdb` with
allow-list `["bar"]` is skipped entirely. -/
theorem allow_list_restriction_witness :
    "foo.userdb".data ∉
      get_userdb_folders [⟨"foo.userdb".data, true⟩] ["bar".data] := by
  have h := (allow_list_restriction [⟨"foo.userdb".data, true⟩] ["bar".data]
      ⟨"foo.userdb".data, true⟩ "foo".data (by decide)
      (List.mem_singleton.mpr rfl)).1 rfl (by decide)
  intro hmem
  rcases h.mp hmem with h1 | h1
  · exact absurd h1 (by decide)
  · exact absurd h1 (by decide)

/-- Claim C6. Sync-directory resolution is total and follows the ordered
fallback chain: the host API directory when it exists; else the normalized
`sync_dir` of `installation.yaml` when that exists; else
`<user_data_dir>/sync` even when absent — and a non-existent result yields
zero scan matches downstream. -/
theorem sync_directory_resolution (env : PathEnv) (entries : List DirEntry)
    (cl : List (List Char)) :
    (env.existsDir env.apiSyncDir = true →
      get_sync_directory env = env.apiSyncDir) ∧
    (env.existsDir env.apiSyncDir = false →
      ∀ d, env.instSyncDir = some d →
        env.existsDir (normalizeBackslashes d) = true →
        get_sync_directory env = normalizeBackslashes d) ∧
    (env.existsDir env.apiSyncDir = false →
      (∀ d, env.instSyncDir = some d →
        env.existsDir (normalizeBackslashes d) = false) →
      get_sync_directory env = pathJoin env.userDataDir "sync".data) ∧
    (env.existsDir (get_sync_directory env) = false →
      get_userdb_files env entries cl = []) := by
  refine ⟨?_, ?_, ?_, ?_⟩
  · intro h
    simp [get_sync_directory, h]
  · intro h d hd hex
    simp [get_sync_directory, h, hd, hex]
  · intro h hall
    cases hd : env.instSyncDir with
    | none => simp [get_sync_directory, h, hd]
    | some d => simp [get_sync_directory, h, hd, hall d hd]
  · intro h
    simp [get_userdb_files, h]

/-- Witness for C6: with a host where no candidate directory exists,
resolution returns `<user_data_dir>/sync` and the downstream scan finds
nothing. -/
theorem sync_directory_resolution_witness :
    get_sync_directory
        ⟨"api".data, "udir".data, some "inst".data, fun _ => false⟩ =
      pathJoin "udir".data "sync".data ∧
    get_userdb_files
        ⟨"api".data, "udir".data, some "inst".data, fun _ => false⟩ [] [] = [] :=
  ⟨(sync_directory_resolution
      ⟨"api".data, "udir".data, some "inst".data, fun _ => false⟩ [] []).2.2.1
      rfl (fun _ _ => rfl),
   (sync_directory_resolution
      ⟨"api".data, "udir".data, some "inst".data, fun _ => false⟩ [] []).2.2.2
      rfl⟩

/-- Claim C7. Skip-on-open-failure atomicity: a text file whose input stream or
sibling temporary output stream fails to open is skipped entirely — its
lines are unchanged, and it contributes zero to the deleted count and
nothing to the deleted labels of the whole pass. -/
theorem skip_on_open_failure (pre post : List TxtFile) (f : TxtFile)
    (h : f.canOpenIn = false ∨ f.canOpenOut = false) :
    processFile f.canOpenIn f.canOpenOut f.lines = (f.lines, 0, []) ∧
    clean_userdb_files (pre ++ f :: post) = clean_userdb_files (pre ++ post) := by
  have hp : processFile f.canOpenIn f.canOpenOut f.lines = (f.lines, 0, []) := by
    rcases h with h | h <;> simp [processFile, h]
  refine ⟨hp, ?_⟩
  induction pre with
  | nil => simp [clean_userdb_files, hp]
  | cons g gs ih => simp [clean_userdb_files, ih]

/-- Witness for C7: one file with a droppable record but an unopenable
input stream contributes nothing. -/
theorem skip_on_open_failure_witness :
    processFile false true ["a\tb\tc=-1".data] = (["a\tb\tc=-1".data], 0, []) ∧
    clean_userdb_files ([] ++ ⟨false, true, ["a\tb\tc=-1".data]⟩ :: []) =
      clean_userdb_files ([] ++ []) :=
  skip_on_open_failure [] [] ⟨false, true, ["a\tb\tc=-1".data]⟩ (Or.inl rfl)

/-- Claim C8. Label extraction: with `a` and `b` tab-free, a line with no tab
labels as the whole line, a line with exactly one tab labels as the part
after it, and a line with two or more tabs labels as the part strictly
between the first two tabs — independently of the keep decision. -/
theorem extract_word_text_spec (a b c : List Char)
    (ha : '\t' ∉ a) (hb : '\t' ∉ b) :
    extract_word_text a = a ∧
    extract_word_text (a ++ '\t' :: b) = b ∧
    extract_word_text (a ++ '\t' :: (b ++ '\t' :: c)) = b := by
  refine ⟨?_, ?_, ?_⟩
  · simp [extract_word_text, breakTab_none a ha]
  · simp [extract_word_text, breakTab_append a b ha, breakTab_none b hb]
  · simp [extract_word_text, breakTab_append a _ ha, breakTab_append b c hb]

/-- Witness for C8 at the spec's Scenario B line. -/
theorem extract_word_text_spec_witness :
    extract_word_text "wu xiao\t无效\tc=-1 d=0.1 t=50".data = "无效".data := by
  have e : "wu xiao\t无效\tc=-1 d=0.1 t=50".data =
      "wu xiao".data ++ '\t' :: ("无效".data ++ '\t' :: "c=-1 d=0.1 t=50".data) := by
    decide
  rw [e]
  exact (extract_word_text_spec "wu xiao".data "无效".data
    "c=-1 d=0.1 t=50".data (by decide) (by decide)).2.2

/-- Claim C9. Separate deletion counters: the count handed to the notification
sink is exactly the text-record deletion total of the compaction pass and
is unaffected by the folder purge, whose successful-deletion count is
returned separately; a failed per-file deletion is not counted and does not
abort the remaining deletions. -/
theorem separate_deletion_counters (folders : List (List Bool))
    (files : List TxtFile) (pre post : List Bool) (rest : List (List Bool)) :
    (process_clean_task folders files).notifiedCount =
      (clean_userdb_files files).1 ∧
    (∀ folders' : List (List Bool),
      (process_clean_task folders' files).notifiedCount =
        (process_clean_task folders files).notifiedCount) ∧
    (process_clean_task folders files).folderDeletedCount =
      clean_userdb_folders folders ∧
    clean_userdb_folders ((pre ++ false :: post) :: rest) =
      clean_userdb_folders ((pre ++ post) :: rest) := by
  refine ⟨rfl, fun _ => rfl, rfl, ?_⟩
  simp [clean_userdb_folders, purgeFolder, List.filter_append]

/-- Claim C10. Trigger-handling edge case: when the input buffer equals the
trigger, the buffer is cleared unconditionally, before and regardless of
whether the task starts; `kAccepted` is returned exactly when the task
actually started, and a refusal (task already in flight) returns `kNoop`
with the buffer already cleared. -/
theorem trigger_clear_edge (trigger : List Char) (ctx : InputContext)
    (s : DetachedThreadManager) (h : ctx.input = trigger) :
    (ProcessKeyEvent trigger ctx s).2.1.input = [] ∧
    ((ProcessKeyEvent trigger ctx s).1 = ProcessResult.kAccepted ↔
      s.busy = false) ∧
    (s.busy = true →
      (ProcessKeyEvent trigger ctx s).1 = ProcessResult.kNoop ∧
      (ProcessKeyEvent trigger ctx s).2.1.input = []) := by
  cases hb : s.busy <;> simp [ProcessKeyEvent, try_start, h, hb]

/-- Witness for C10: trigger `/del` typed while a task is in flight —
buffer cleared, `kNoop` returned. -/
theorem trigger_clear_edge_witness :
    (ProcessKeyEvent "/del".data ⟨"/del".data⟩ ⟨true⟩).2.1.input = [] ∧
    ((ProcessKeyEvent "/del".data ⟨"/del".data⟩ ⟨true⟩).1 =
        ProcessResult.kAccepted ↔
      (⟨true⟩ : DetachedThreadManager).busy = false) ∧
    ((⟨true⟩ : DetachedThreadManager).busy = true →
      (ProcessKeyEvent "/del".data ⟨"/del".data⟩ ⟨true⟩).1 =
          ProcessResult.kNoop ∧
      (ProcessKeyEvent "/del".data ⟨"/del".data⟩ ⟨true⟩).2.1.input = []) :=
  trigger_clear_edge "/del".data ⟨"/del".data⟩ ⟨true⟩ rfl

end UserdbCleaner
